import Mathlib

/-!
# Marionette: expression evaluation and the shell module

A shallow embedding of `ast/object.go` (the primitive values and
`Funcall.Evaluate`) and of `modules/module_shell.go` (`ShellModule.Check`,
`ShellModule.Execute`, `ShellModule.executeSingle`), followed by theorems about
them.

Conventions of the embedding

* A Go `error` is an `Err` carrying its message; `nil` is `none`.
* A Go `(string, error)` result is the pair `String × Option Err`, so that an
  explicit `return "", err` stays visible.
* Side effects are explicit: every effectful function takes a `World` (the state
  of the external collaborator together with the list of operations requested
  so far) and returns the new one.
* `log.Printf` lines are diagnostics only and are left out.
* Go strings are byte strings; they are modelled by `String`, the separators and
  special characters the code looks for being ASCII.
-/

namespace marionette

/-- A Go `error` value, identified by the text of its `Error()` method. -/
structure Err where
  text : String
  deriving DecidableEq, Repr

/-- The error built by `fmt.Errorf` once its format has been rendered. -/
def Errorf (msg : String) : Err := ⟨msg⟩

/-- The state of an external collaborator together with the operations of it
that were requested, oldest first. -/
structure World (σ : Type) (ε : Type) where
  state : σ
  trace : List ε
  deriving DecidableEq

namespace ast

mutual
/-- The five primitive values of `object.go`, the implementors of `Object`. -/
inductive Object where
  | Backtick (Value : String)
  | Boolean (Value : Bool)
  | Funcall (Name : String) (Args : List Node)
  | Number (Value : Int)
  | String (Value : String)
/-- A dynamically typed value as `Funcall` meets it: an element of `Args`
(a `Node`) or the `interface{}` a registered function returns. It either
implements `Object` or it does not; in the latter case only its rendering
(what `%v` prints) is kept. -/
inductive Node where
  | object (o : Object)
  | other (str : String)
end

/-- The checked type assertion `x.(Object)`. -/
def Node.asObject : Node → Option Object
  | .object o => some o
  | .other _ => none

/-- The operations requested from the environment and the function registry. -/
inductive Event where
  | ExpandVariables (value : String)
  | ExpandBacktick (value : String)
  | Call (name : String) (args : List String)
  deriving DecidableEq, Repr

/-- Modelled from the spec: the package `environment` is not part of the
sources; its two operations consumed by the values are taken as parameters over
an abstract state `σ`. `ExpandVariables` is total and never fails;
`ExpandBacktick` runs a command and returns the Go pair `(string, error)`, of
which nothing is assumed: a string may come next to an error. -/
structure Environment (σ : Type) where
  ExpandVariables : σ → String → String × σ
  ExpandBacktick : σ → String → (String × Option Err) × σ

/-- The type of a registered function: `func(env, args) (interface{}, error)`. -/
abbrev Function (σ : Type) := σ → List String → (Node × Option Err) × σ

/-- The table `FUNCTIONS` (declared outside `object.go`), as a lookup. -/
abbrev Registry (σ : Type) := String → Option (Function σ)

/-- What `Evaluate` returns: the Go pair `(string, error)`. -/
abbrev Result := String × Option Err

/-- Decimal digits of a natural number, most significant first. -/
def natDigits (n : Nat) : List Char := Nat.toDigits 10 n

/-- Rendering of an `int64` by the verb `%d`. -/
def formatInt (n : Int) : String :=
  match n with
  | .ofNat m => String.mk (natDigits m)
  | .negSucc m => String.mk ('-' :: natDigits (m + 1))

/-- The method `String()` of the five values. -/
def objectString : Object → String
  | .Backtick v => "Backtick\x7bCommand:" ++ v ++ "\x7d"
  | .Boolean true => "Boolean\x7btrue\x7d"
  | .Boolean false => "Boolean\x7bfalse\x7d"
  | .Funcall name _ => "Funcall\x7b" ++ name ++ "\x7d"
  | .Number n => "Number\x7b" ++ formatInt n ++ "\x7d"
  | .String v => "String\x7b" ++ v ++ "\x7d"

/-- What `%v` prints for a node: its `String()` method. -/
def nodeString : Node → String
  | .object o => objectString o
  | .other s => s

/-- The outcome of the argument loop of `Funcall.Evaluate`: either the function
returned early with `ret`, or the loop ran to its end with the collected
strings. -/
inductive ArgsOutcome where
  | returned (ret : Result)
  | done (args : List String)

/-- The loop `for _, arg := range f.Args` of `Funcall.Evaluate`, over the
evaluator `ev` used for `obj.Evaluate(env)`; `acc` is the slice `args` built so
far. `none` means the evaluator did not return. -/
def evalArgs {σ : Type} (ev : Object → World σ Event → Option (Result × World σ Event)) :
    List Node → List String → World σ Event → Option (ArgsOutcome × World σ Event)
  | [], acc, w => some (.done acc, w)
  | arg :: rest, acc, w =>
    match arg.asObject with
    | none => some (.returned ("", some (Errorf ("failed to cast " ++ nodeString arg ++ " to an Object"))), w)
    | some obj =>
      match ev obj w with
      | none => none
      | some ((_, some err), w1) => some (.returned ("", some err), w1)
      | some ((val, none), w1) => evalArgs ev rest (acc ++ [val]) w1

/-- The method `Evaluate` of the five values. The fuel bounds the depth of the
calls `Funcall.Evaluate` makes to `Evaluate` (on its arguments and on the value
its function returns); `none` means that depth was exceeded. -/
def Evaluate {σ : Type} (env : Environment σ) (FUNCTIONS : Registry σ) :
    Nat → Object → World σ Event → Option (Result × World σ Event)
  | _, .Backtick value, w =>
    match env.ExpandBacktick w.state value with
    | ((ret, err), s) => some ((ret, err), ⟨s, w.trace ++ [.ExpandBacktick value]⟩)
  | _, .Boolean value, w =>
    if value then some (("true", none), w) else some (("false", none), w)
  | _, .Number value, w => some ((formatInt value, none), w)
  | _, .String value, w =>
    match env.ExpandVariables w.state value with
    | (ret, s) => some ((ret, none), ⟨s, w.trace ++ [.ExpandVariables value]⟩)
  | fuel, .Funcall name fargs, w =>
    match FUNCTIONS name with
    | none => some (("", some (Errorf ("function " ++ name ++ " not defined"))), w)
    | some fn =>
      match fuel with
      | 0 => none
      | fuel + 1 =>
        match evalArgs (Evaluate env FUNCTIONS fuel) fargs [] w with
        | none => none
        | some (.returned ret, w1) => some (ret, w1)
        | some (.done args, w1) =>
          match fn w1.state args with
          | ((_, some err), s) => some (("", some err), ⟨s, w1.trace ++ [.Call name args]⟩)
          | ((ret, none), s) =>
            match ret.asObject with
            | some obj =>
              match Evaluate env FUNCTIONS fuel obj ⟨s, w1.trace ++ [.Call name args]⟩ with
              | none => none
              | some ((_, some err2), w2) => some (("", some err2), w2)
              | some ((val, none), w2) => some ((val, none), w2)
            | none =>
              some (("", some (Errorf "return value wasn't an Oobject")),
                ⟨s, w1.trace ++ [.Call name args]⟩)

end ast

namespace modules

/-- A value of type `interface{}` held by the argument map of a module: a
`string`, a `[]string`, or a value of any other dynamic type (a number, `nil`,
a `[]interface{}`, ...), of which only the name of the type is kept. -/
inductive Value where
  | string (s : String)
  | strings (l : List String)
  | other (typ : String)
  deriving DecidableEq, Repr

/-- The argument map `map[string]interface{}`, as a lookup. -/
abbrev Args := String → Option Value

/-- Modelled from the spec: the helper `StringParam` is declared outside
`module_shell.go`. It resolves a named argument that is optional and, when
given, is a string: the string when the key holds one, the empty string
otherwise. -/
def StringParam (vars : Args) (param : String) : String :=
  match vars param with
  | some (.string str) => str
  | _ => ""

/-- The library function `strings.ToLower`. Letters outside ASCII are left
alone; no such letter has an ASCII lower case among `t`, `r`, `u`, `e`, so the
comparison with `"true"` is not affected. -/
def ToLower (s : String) : String := String.mk (s.data.map Char.toLower)

/-- The library function `strings.Contains`: `substr` occurs within `s`. -/
def Contains (s substr : String) : Bool :=
  s.data.tails.any (fun t => substr.data.isPrefixOf t)

/-- Splitting a list of characters at every occurrence of `sep`. -/
def splitChars (sep : Char) : List Char → List (List Char)
  | [] => [[]]
  | c :: cs =>
    if c = sep then [] :: splitChars sep cs
    else
      match splitChars sep cs with
      | [] => [[c]]
      | h :: t => (c :: h) :: t

/-- The library function `strings.Split` for a separator of one character:
the substrings of `s` between the occurrences of `sep`. -/
def Split (s : String) (sep : Char) : List String :=
  (splitChars sep s.data).map String.mk

/-- Where a stream of a child process goes: nowhere yet, the console of the
parent (`os.Stdout`, `os.Stderr`), or a private `bytes.Buffer`. -/
inductive Stream where
  | unset
  | console
  | buffer
  deriving DecidableEq, Repr

/-- The part of `exec.Cmd` the module sets: the argument vector (the program
first) and the two output streams. -/
structure Cmd where
  Args : List String
  Stdout : Stream
  Stderr : Stream
  deriving DecidableEq, Repr

/-- The library function `exec.Command(name, arg...)`. -/
def Command (name : String) (arg : List String) : Cmd :=
  ⟨name :: arg, .unset, .unset⟩

/-- What `cmd.Run()` leaves behind: its error, the bytes written to the two
buffers (when the streams are buffers), and the new state of the host. -/
structure RunResult (ω : Type) where
  err : Option Err
  out : String
  errOut : String
  state : ω

/-- The behaviour of the host when a command is run: `cmd.Run()`. -/
abbrev Runner (ω : Type) := ω → Cmd → RunResult ω

/-- Modelled from the spec: the package `config` is not part of the sources;
of the configuration only the boolean debug flag is consumed. -/
structure Config where
  Debug : Bool
  deriving DecidableEq, Repr

/-- The module state `ShellModule`. -/
structure ShellModule where
  cfg : Config
  deriving DecidableEq, Repr

/-- How a call ends: it returns to its caller, or a run-time error of the
language (an unchecked type assertion, an index out of range) aborts it. -/
inductive Outcome (α : Type) where
  | returned (a : α)
  | aborted (msg : String)
  deriving DecidableEq, Repr

/-- The method `Check`. -/
def ShellModule.Check (_f : ShellModule) (args : Args) : Option Err :=
  match args "command" with
  | none => some (Errorf "missing 'command' parameter")
  | some _ => none

/-- The local variable `useShell` of `executeSingle` once both tests ran. -/
def ShellModule.useShell (command : String) (args : Args) : Bool :=
  let useShell := false
  let shell := StringParam args "shell"
  let useShell := if ToLower shell = "true" then true else useShell
  let useShell :=
    if Contains command ">" || Contains command "&" || Contains command "|"
        || Contains command "<" then true
    else useShell
  useShell

/-- The local variable `bits` of `executeSingle` when the command is built. -/
def ShellModule.bits (command : String) (args : Args) : List String :=
  let bits := Split command ' '
  if ShellModule.useShell command args then ["bash", "-c", command] else bits

/-- The method `executeSingle`: builds the argument vector, runs it, and turns
an error of the run into the error of the command. -/
def ShellModule.executeSingle {ω : Type} (run : Runner ω) (f : ShellModule)
    (command : String) (args : Args) (w : World ω Cmd) : Outcome (Option Err) × World ω Cmd :=
  match ShellModule.bits command args with
  | [] => (.aborted "index out of range [0] with length 0", w)
  | name :: rest =>
    let cmd := Command name rest
    let cmd : Cmd :=
      if f.cfg.Debug then { cmd with Stderr := .console, Stdout := .console }
      else { cmd with Stdout := .buffer, Stderr := .buffer }
    let r := run w.state cmd
    let w1 : World ω Cmd := ⟨r.state, w.trace ++ [cmd]⟩
    match r.err with
    | some err =>
      (.returned (some (Errorf ("error running command '" ++ command ++ "' " ++ err.text))), w1)
    | none => (.returned none, w1)

/-- The loop `for _, cmd := range cmds` of `Execute` and the return after it. -/
def ShellModule.executeAll {ω : Type} (run : Runner ω) (f : ShellModule) (args : Args) :
    List String → World ω Cmd → Outcome (Bool × Option Err) × World ω Cmd
  | [], w => (.returned (true, none), w)
  | cmd :: rest, w =>
    match f.executeSingle run cmd args w with
    | (.aborted msg, w1) => (.aborted msg, w1)
    | (.returned (some err), w1) => (.returned (false, some err), w1)
    | (.returned none, w1) => ShellModule.executeAll run f args rest w1

/-- The method `Execute` (its parameter `env` is not used by the code). -/
def ShellModule.Execute {ω : Type} (run : Runner ω) (f : ShellModule) (args : Args)
    (w : World ω Cmd) : Outcome (Bool × Option Err) × World ω Cmd :=
  match args "command" with
  | none => (.returned (false, some (Errorf "missing 'command' parameter")), w)
  | some arg =>
    match arg with
    | .string str =>
      match f.executeSingle run str args w with
      | (.aborted msg, w1) => (.aborted msg, w1)
      | (.returned (some err), w1) => (.returned (false, some err), w1)
      | (.returned none, w1) => (.returned (true, none), w1)
    | .strings cmds => ShellModule.executeAll run f args cmds w
    | .other typ =>
      (.aborted ("interface conversion: interface \x7b\x7d is " ++ typ ++ ", not []string"), w)

end modules

/-! ## Notions used to state the properties -/

namespace ast

/-- The arguments `args`, evaluated one after the other by `ev` starting in the
world `w`, are all evaluable values and all succeed; they yield the strings
`vals` in the same order, and leave the world `w2`. -/
inductive EvaluatesTo {σ : Type}
    (ev : Object → World σ Event → Option (Result × World σ Event)) :
    List Node → World σ Event → List String → World σ Event → Prop where
  | nil (w : World σ Event) : EvaluatesTo ev [] w [] w
  | cons {arg : Node} {obj : Object} {rest : List Node} {w w1 w2 : World σ Event}
      {val : String} {vals : List String} :
      arg.asObject = some obj → ev obj w = some ((val, none), w1) →
      EvaluatesTo ev rest w1 vals w2 → EvaluatesTo ev (arg :: rest) w (val :: vals) w2

/-- The library function `strings.ToUpper`, on ASCII letters. -/
def ToUpper (s : String) : String := String.mk (s.data.map Char.toUpper)

/-- An environment for the examples. Its state is the list of the commands it
has executed; expansion is the identity; the command `false` fails and every
other command prints its own text. -/
def demoEnv : Environment (List String) where
  ExpandVariables := fun s value => (value, s)
  ExpandBacktick := fun s value =>
    if value = "false" then
      (("", some (Errorf "error running command \x27false\x27 exit status 1")), s ++ [value])
    else ((value, none), s ++ [value])

/-- A registry for the examples: `upper` returns its first argument in upper
case as a string literal, `answer` returns a bare number that is not an
evaluable value, `fail` returns an error next to a value. -/
def demoFunctions : Registry (List String) := fun name =>
  if name = "upper" then
    some (fun s args => ((.object (.String (ToUpper (args.headD ""))), none), s))
  else if name = "answer" then
    some (fun s _ => ((.other "42", none), s))
  else if name = "fail" then
    some (fun s _ => ((.object (.Boolean true), some (Errorf "failed")), s))
  else none

/-- The world in which the example environment has done nothing yet. -/
def demoWorld : World (List String) Event := ⟨[], []⟩

/-- An environment for the examples whose expansion knows one binding: `name`
is `world`. It executes no command successfully. -/
def helloEnv : Environment (List String) where
  ExpandVariables := fun s value =>
    (if value = "hello $\x7bname\x7d" then "hello world" else value, s)
  ExpandBacktick := fun s value =>
    (("", some (Errorf "no command interpreter")), s ++ [value])

/-- The value of a decimal digit character, if it is one. -/
def digitValue (c : Char) : Option Nat :=
  if '0' ≤ c ∧ c ≤ '9' then some (c.toNat - '0'.toNat) else none

/-- Reading decimal digits from the left, `acc` being the number read so far;
fails on a character that is not a digit. -/
def parseDigits : List Char → Nat → Option Nat
  | [], acc => some acc
  | c :: cs, acc =>
    match digitValue c with
    | none => none
    | some d => parseDigits cs (acc * 10 + d)

/-- Parsing a string as a decimal integer: an optional minus sign followed by at
least one digit and nothing else. -/
def parseInt (s : String) : Option Int :=
  match s.data with
  | [] => none
  | '-' :: ds => if ds = [] then none else (parseDigits ds 0).map (fun (m : Nat) => -(m : Int))
  | ds => (parseDigits ds 0).map (fun (m : Nat) => (m : Int))

end ast

namespace modules

/-- The stream both outputs of a command are connected to: the console when the
debug flag is set, a private buffer otherwise. -/
def ShellModule.stream (f : ShellModule) : Stream :=
  if f.cfg.Debug then .console else .buffer

/-- The command `executeSingle` hands to `Run` for the command string
`command`: the argument vector `bits` with both outputs routed. -/
def ShellModule.command (f : ShellModule) (command : String) (args : Args) : Cmd :=
  ⟨ShellModule.bits command args, f.stream, f.stream⟩

/-- The commands `cmds`, run one after the other by `executeSingle` starting in
the world `w`, all complete without failure, and leave the world `w1`. -/
inductive Succeed {ω : Type} (run : Runner ω) (f : ShellModule) (args : Args) :
    List String → World ω Cmd → World ω Cmd → Prop where
  | nil (w : World ω Cmd) : Succeed run f args [] w w
  | cons {cmd : String} {rest : List String} {w w1 w2 : World ω Cmd} :
      f.executeSingle run cmd args w = (.returned none, w1) →
      Succeed run f args rest w1 w2 → Succeed run f args (cmd :: rest) w w2

/-- The fields of `s` as the spec words the direct execution ("split on
whitespace"): the maximal substrings of `s` free of white space, `cur` being
the field under construction, last character first. -/
def fieldsChars : List Char → List Char → List (List Char)
  | [], cur => if cur = [] then [] else [cur.reverse]
  | c :: cs, cur =>
    if c.isWhitespace then
      if cur = [] then fieldsChars cs [] else cur.reverse :: fieldsChars cs []
    else fieldsChars cs (c :: cur)

/-- Splitting on white space, following the words of the spec. -/
def whitespaceFields (s : String) : List String :=
  (fieldsChars s.data []).map String.mk

/-- A host for the examples. Its state is the list of the argument vectors it
has run; a command whose program is `false` exits with status 1, every other
one succeeds; each writes to both of its outputs. -/
def demoRun : Runner (List (List String)) := fun s cmd =>
  { err := if cmd.Args.head? = some "false" then some (Errorf "exit status 1") else none
    out := "some output"
    errOut := "some diagnostics"
    state := s ++ [cmd.Args] }

/-- The module of the examples, built with the debug flag off. -/
def demoModule : ShellModule := ⟨⟨false⟩⟩

/-- The argument map of the examples that holds `command` only. -/
def commandArgs (v : Value) : Args := fun key =>
  if key = "command" then some v else none

/-- The argument map of the examples that holds `command` and `shell`. -/
def shellArgs (v : Value) (shell : String) : Args := fun key =>
  if key = "command" then some v else if key = "shell" then some (.string shell) else none

/-- The empty argument map. -/
def noArgs : Args := fun _ => none

/-- The world in which the example host has run nothing yet. -/
def demoHost : World (List (List String)) Cmd := ⟨[], []⟩

/-- A host for the examples on which every command exits with status 1 after
writing to both of its outputs. -/
def failingRun : Runner (List (List String)) := fun s cmd =>
  { err := some (Errorf "exit status 1")
    out := "some output"
    errOut := "some diagnostics"
    state := s ++ [cmd.Args] }

end modules

/-! ## Properties of `Funcall.Evaluate` -/

namespace ast

variable {σ : Type}

/-- Once a prefix of the arguments has evaluated successfully, the loop goes on
with the remaining arguments, the strings collected and the world reached. -/
theorem evalArgs_append {ev : Object → World σ Event → Option (Result × World σ Event)}
    {pre : List Node} {w w1 : World σ Event} {vals : List String}
    (h : EvaluatesTo ev pre w vals w1) (rest : List Node) (acc : List String) :
    evalArgs ev (pre ++ rest) acc w = evalArgs ev rest (acc ++ vals) w1 := by
  induction h generalizing acc with
  | nil w => simp
  | cons hobj hev _ ih =>
    rw [List.cons_append, evalArgs]
    simp only [hobj, hev]
    rw [ih]
    simp

/-- When all the arguments evaluate successfully the loop ends with their
strings. -/
theorem evalArgs_done {ev : Object → World σ Event → Option (Result × World σ Event)}
    {args : List Node} {w w1 : World σ Event} {vals : List String}
    (h : EvaluatesTo ev args w vals w1) :
    evalArgs ev args [] w = some (.done vals, w1) := by
  have := evalArgs_append h [] []
  simpa [evalArgs] using this

/-- The body of `Funcall.Evaluate` once the function has been found. -/
theorem Evaluate_Funcall_succ (env : Environment σ) (F : Registry σ) (fuel : Nat)
    (name : String) (args : List Node) (w : World σ Event) (fn : Function σ)
    (hfn : F name = some fn) :
    Evaluate env F (fuel + 1) (.Funcall name args) w =
      match evalArgs (Evaluate env F fuel) args [] w with
        | none => none
        | some (.returned ret, w1) => some (ret, w1)
        | some (.done vals, w1) =>
          match fn w1.state vals with
          | ((_, some err), s) => some (("", some err), ⟨s, w1.trace ++ [.Call name vals]⟩)
          | ((ret, none), s) =>
            match ret.asObject with
            | some obj =>
              match Evaluate env F fuel obj ⟨s, w1.trace ++ [.Call name vals]⟩ with
              | none => none
              | some ((_, some err2), w2) => some (("", some err2), w2)
              | some ((val, none), w2) => some ((val, none), w2)
            | none =>
              some (("", some (Errorf "return value wasn\x27t an Oobject")),
                ⟨s, w1.trace ++ [.Call name vals]⟩) := by
  rw [Evaluate]
  simp only [hfn]

/-- An early return or the end of the argument loop that one evaluator reaches
is reached by every evaluator that returns at least as often. -/
theorem evalArgs_mono {ev ev2 : Object → World σ Event → Option (Result × World σ Event)}
    (hev : ∀ o w r, ev o w = some r → ev2 o w = some r)
    (args : List Node) (acc : List String) (w : World σ Event)
    (r : ArgsOutcome × World σ Event) (h : evalArgs ev args acc w = some r) :
    evalArgs ev2 args acc w = some r := by
  induction args generalizing acc w with
  | nil => simpa [evalArgs] using h
  | cons arg rest ih =>
    rw [evalArgs] at h ⊢
    cases hobj : arg.asObject with
    | none => simpa [hobj] using h
    | some obj =>
      simp only [hobj] at h ⊢
      cases hr : ev obj w with
      | none => simp [hr] at h
      | some x =>
        rw [hev obj w x hr]
        rw [hr] at h
        obtain ⟨⟨val, e⟩, w1⟩ := x
        cases e with
        | some err => simpa using h
        | none => exact ih _ _ h

/-- A result obtained with some fuel is obtained with one more unit of it. -/
theorem Evaluate_fuel_succ (env : Environment σ) (F : Registry σ) (fuel : Nat) :
    ∀ (o : Object) (w : World σ Event) (r : Result × World σ Event),
      Evaluate env F fuel o w = some r → Evaluate env F (fuel + 1) o w = some r := by
  induction fuel with
  | zero =>
    intro o w r h
    cases o with
    | Funcall name args =>
      cases hfn : F name with
      | none => simpa [Evaluate, hfn] using h
      | some fn => simp [Evaluate, hfn] at h
    | _ => simpa [Evaluate] using h
  | succ n ih =>
    intro o w r h
    cases o with
    | Funcall name args =>
      cases hfn : F name with
      | none => simpa [Evaluate, hfn] using h
      | some fn =>
        rw [Evaluate_Funcall_succ env F _ name args w fn hfn] at h ⊢
        cases hargs : evalArgs (Evaluate env F n) args [] w with
        | none => simp [hargs] at h
        | some x =>
          rw [evalArgs_mono ih args [] w x hargs]
          rw [hargs] at h
          obtain ⟨out, w1⟩ := x
          cases out with
          | returned ret => exact h
          | done vals =>
            simp only at h ⊢
            rcases hfnr : fn w1.state vals with ⟨⟨ret, e⟩, s⟩
            rw [hfnr] at h
            cases e with
            | some err => exact h
            | none =>
              cases hobj : ret.asObject with
              | none => simpa [hobj] using h
              | some obj =>
                simp only [hobj] at h ⊢
                cases hv : Evaluate env F n obj ⟨s, w1.trace ++ [.Call name vals]⟩ with
                | none => simp [hv] at h
                | some y =>
                  rw [ih obj _ y hv]
                  rw [hv] at h
                  exact h
    | _ => simpa [Evaluate] using h

/-- The result of an evaluation does not depend on the fuel once there is enough
of it. -/
theorem Evaluate_fuel_mono (env : Environment σ) (F : Registry σ) {fuel fuel2 : Nat}
    (hle : fuel ≤ fuel2) (o : Object) (w : World σ Event) (r : Result × World σ Event)
    (h : Evaluate env F fuel o w = some r) : Evaluate env F fuel2 o w = some r := by
  induction hle with
  | refl => exact h
  | step _ ih => exact Evaluate_fuel_succ env F _ o w r ih

/-- C1: a function call whose name is not a key of the registry returns, for
every environment, every argument list and every fuel, the empty string with
the error "function NAME not defined", and leaves the world exactly as it was:
no argument is evaluated, no variable expansion and no command execution is
requested, and no function is called. -/
theorem Funcall_Evaluate_unregistered (env : Environment σ) (FUNCTIONS : Registry σ)
    (fuel : Nat) (name : String) (args : List Node) (w : World σ Event)
    (h : FUNCTIONS name = none) :
    Evaluate env FUNCTIONS fuel (.Funcall name args) w =
      some (("", some (Errorf ("function " ++ name ++ " not defined"))), w) := by
  cases fuel <;> simp [Evaluate, h]

/-- Instance of C1: `lower` is not registered; its arguments are a command
substitution, a nested call and a node that is no value; nothing is run. -/
theorem Funcall_Evaluate_unregistered_witness :
    demoFunctions "lower" = none ∧
    Evaluate demoEnv demoFunctions 0
      (.Funcall "lower" [.object (.Backtick "touch /tmp/x"),
        .object (.Funcall "upper" [.object (.String "a")]), .other "rule"]) demoWorld =
      some (("", some (Errorf "function lower not defined")), demoWorld) :=
  ⟨rfl, Funcall_Evaluate_unregistered demoEnv demoFunctions 0 "lower" _ demoWorld rfl⟩

/-- C2: when the name is registered, the arguments before position k evaluate
successfully one after the other (from the world `w` to the world `w1`) and the
argument at position k fails with `err`, leaving the world `w2`, the call
returns the empty string with that very error `err` and the world is `w2`: the
arguments 0 to k have been evaluated in that order, none of the later arguments
has, and the registered function has not been called. -/
theorem Funcall_Evaluate_argument_failure (env : Environment σ) (FUNCTIONS : Registry σ)
    (fuel : Nat) (name : String) (fn : Function σ) (pre post : List Node) (arg : Node)
    (obj : Object) (w w1 w2 : World σ Event) (vals : List String) (val : String) (err : Err)
    (hfn : FUNCTIONS name = some fn)
    (hpre : EvaluatesTo (Evaluate env FUNCTIONS fuel) pre w vals w1)
    (hobj : arg.asObject = some obj)
    (hfail : Evaluate env FUNCTIONS fuel obj w1 = some ((val, some err), w2)) :
    Evaluate env FUNCTIONS (fuel + 1) (.Funcall name (pre ++ arg :: post)) w =
      some (("", some err), w2) := by
  rw [Evaluate_Funcall_succ env FUNCTIONS fuel name _ w fn hfn, evalArgs_append hpre, evalArgs]
  simp only [hobj, hfail]

/-- Instance of C2: the second of four arguments fails; the environment has run
`echo` and `false` in that order and nothing else, and `upper` was not called. -/
theorem Funcall_Evaluate_argument_failure_witness :
    Evaluate demoEnv demoFunctions 1
      (.Funcall "upper" [.object (.Backtick "echo"), .object (.Backtick "false"),
        .object (.Backtick "touch /tmp/x"), .other "rule"]) demoWorld =
      some (("", some (Errorf "error running command \x27false\x27 exit status 1")),
        ⟨["echo", "false"], [.ExpandBacktick "echo", .ExpandBacktick "false"]⟩) :=
  Funcall_Evaluate_argument_failure demoEnv demoFunctions 0 "upper" _
    [.object (.Backtick "echo")] [.object (.Backtick "touch /tmp/x"), .other "rule"]
    (.object (.Backtick "false")) (.Backtick "false") demoWorld
    ⟨["echo"], [.ExpandBacktick "echo"]⟩ _ ["echo"] "" _ rfl
    (.cons rfl rfl (.nil _)) rfl rfl

/-- C4, as amended: when the name is registered, the arguments evaluate
successfully and the registered function returns without error a value that is
not an `Object`, the call returns the empty string with the error whose text is
"return value wasn't an Oobject"; the function has been called once and the
returned value is not evaluated. -/
theorem Funcall_Evaluate_return_not_object (env : Environment σ) (FUNCTIONS : Registry σ)
    (fuel : Nat) (name : String) (fn : Function σ) (args : List Node)
    (w w1 : World σ Event) (vals : List String) (ret : Node) (s : σ)
    (hfn : FUNCTIONS name = some fn)
    (hargs : EvaluatesTo (Evaluate env FUNCTIONS fuel) args w vals w1)
    (hret : fn w1.state vals = ((ret, none), s))
    (hcast : ret.asObject = none) :
    Evaluate env FUNCTIONS (fuel + 1) (.Funcall name args) w =
      some (("", some (Errorf "return value wasn\x27t an Oobject")),
        ⟨s, w1.trace ++ [.Call name vals]⟩) := by
  rw [Evaluate_Funcall_succ env FUNCTIONS fuel name _ w fn hfn, evalArgs_done hargs]
  simp only [hret, hcast]

/-- Instance of the amended C4: `answer` returns a bare number. -/
theorem Funcall_Evaluate_return_not_object_witness :
    Evaluate demoEnv demoFunctions 1 (.Funcall "answer" [.object (.Backtick "echo")]) demoWorld =
      some (("", some (Errorf "return value wasn\x27t an Oobject")),
        ⟨["echo"], [.ExpandBacktick "echo", .Call "answer" ["echo"]]⟩) :=
  Funcall_Evaluate_return_not_object demoEnv demoFunctions 0 "answer" _
    [.object (.Backtick "echo")] demoWorld ⟨["echo"], [.ExpandBacktick "echo"]⟩ ["echo"]
    (.other "42") ["echo"] rfl (.cons rfl rfl (.nil _)) rfl rfl

/-- Against C4 as stated: `answer` is registered, has no argument to evaluate
and returns without error a value that is not an `Object`; the call returns, and
the error it returns is not the one whose text is "return value is not a valid
evaluable value". -/
theorem Funcall_Evaluate_return_not_object_counterexample :
    ∃ r, Evaluate demoEnv demoFunctions 1 (.Funcall "answer" []) demoWorld = some r ∧
      r.1.2 ≠ some (Errorf "return value is not a valid evaluable value") :=
  ⟨_, rfl, by decide⟩

end ast

/-! ## Properties of the shell module -/

namespace modules

variable {ω : Type}

/-- A split always yields at least one piece. -/
theorem splitChars_ne_nil (sep : Char) (l : List Char) : splitChars sep l ≠ [] := by
  cases l with
  | nil => simp [splitChars]
  | cons c cs =>
    rw [splitChars]
    split
    · simp
    · split <;> simp

/-- Joining the pieces of a split with the separator gives the list back. -/
theorem intercalate_splitChars (sep : Char) (l : List Char) :
    List.intercalate [sep] (splitChars sep l) = l := by
  induction l with
  | nil => simp [splitChars, List.intercalate]
  | cons c cs ih =>
    rw [splitChars]
    split
    · rename_i h
      subst h
      cases hs : splitChars c cs with
      | nil => exact absurd hs (splitChars_ne_nil _ _)
      | cons h t =>
        rw [hs] at ih
        simp only [List.intercalate, List.intersperse, List.flatten] at ih ⊢
        simpa using ih
    · cases hs : splitChars sep cs with
      | nil => exact absurd hs (splitChars_ne_nil _ _)
      | cons h t =>
        rw [hs] at ih
        cases t with
        | nil => simpa [List.intercalate] using ih
        | cons h2 t2 =>
          simp only [List.intercalate, List.intersperse, List.flatten] at ih ⊢
          simpa using ih

/-- No piece of a split contains the separator. -/
theorem not_mem_of_mem_splitChars (sep : Char) (l : List Char) :
    ∀ b ∈ splitChars sep l, sep ∉ b := by
  induction l with
  | nil => simp [splitChars]
  | cons c cs ih =>
    rw [splitChars]
    split
    · intro b hb
      rcases List.mem_cons.1 hb with rfl | hb
      · simp
      · exact ih b hb
    · rename_i hne
      cases hs : splitChars sep cs with
      | nil => exact absurd hs (splitChars_ne_nil _ _)
      | cons h t =>
        rw [hs] at ih
        intro b hb
        rcases List.mem_cons.1 hb with rfl | hb
        · intro hmem
          rcases List.mem_cons.1 hmem with rfl | hmem
          · exact hne rfl
          · exact ih h (List.mem_cons_self _ _) hmem
        · exact ih b (List.mem_cons_of_mem _ hb)

/-- The characters of the accumulating join of strings. -/
theorem intercalate_go_data (acc s : String) (l : List String) :
    (String.intercalate.go acc s l).data = acc.data ++ (l.map (fun a => s.data ++ a.data)).flatten := by
  induction l generalizing acc with
  | nil => simp [String.intercalate.go]
  | cons a as ih => simp [String.intercalate.go, ih, List.append_assoc]

/-- Joining strings is joining their lists of characters. -/
theorem intercalate_data (s : String) (l : List String) :
    (String.intercalate s l).data = List.intercalate s.data (l.map String.data) := by
  cases l with
  | nil => simp [String.intercalate, List.intercalate]
  | cons a as =>
    rw [String.intercalate, intercalate_go_data]
    simp only [List.intercalate, List.map_cons]
    induction as generalizing a with
    | nil => simp
    | cons b bs ih =>
      have := ih b
      simp only [List.map_cons, List.flatten_cons, List.intersperse] at this ⊢
      simp [this]

/-- A string of one character occurs in a text exactly when the character does. -/
theorem contains_char (c : Char) (l : List Char) :
    (l.tails.any (fun t => [c].isPrefixOf t)) = true ↔ c ∈ l := by
  induction l with
  | nil => simp [List.isPrefixOf]
  | cons x xs ih =>
    simp only [List.tails, List.any_cons, Bool.or_eq_true, ih, List.mem_cons]
    simp only [List.isPrefixOf, Bool.and_true, beq_iff_eq]

/-- The argument vector built by `executeSingle` is never empty. -/
theorem bits_ne_nil (command : String) (args : Args) : ShellModule.bits command args ≠ [] := by
  unfold ShellModule.bits
  simp only
  split
  · simp
  · simp [Split, splitChars_ne_nil]

/-- What `executeSingle` does in closed form: it always returns, having run
exactly one command, the one built from the command string; the error of the
run, if any, is wrapped with the command string. -/
theorem executeSingle_eq (run : Runner ω) (f : ShellModule) (command : String) (args : Args)
    (w : World ω Cmd) :
    f.executeSingle run command args w =
      (.returned ((run w.state (f.command command args)).err.map
          (fun err => Errorf ("error running command \x27" ++ command ++ "\x27 " ++ err.text))),
        ⟨(run w.state (f.command command args)).state, w.trace ++ [f.command command args]⟩) := by
  unfold ShellModule.executeSingle ShellModule.command ShellModule.stream
  cases hb : ShellModule.bits command args with
  | nil => exact absurd hb (bits_ne_nil _ _)
  | cons name rest =>
    cases hd : f.cfg.Debug <;> simp only [Command, hd] <;> split <;> simp_all

/-- The shell is used exactly when the `shell` argument in lower case is
`true` or the command holds one of the four special characters. -/
theorem useShell_eq_true_iff (command : String) (args : Args) :
    ShellModule.useShell command args = true ↔
      (ToLower (StringParam args "shell") = "true" ∨ '>' ∈ command.data ∨ '&' ∈ command.data ∨
        '|' ∈ command.data ∨ '<' ∈ command.data) := by
  have hgt : Contains command ">" = true ↔ '>' ∈ command.data := contains_char '>' command.data
  have hamp : Contains command "&" = true ↔ '&' ∈ command.data := contains_char '&' command.data
  have hbar : Contains command "|" = true ↔ '|' ∈ command.data := contains_char '|' command.data
  have hlt : Contains command "<" = true ↔ '<' ∈ command.data := contains_char '<' command.data
  unfold ShellModule.useShell
  simp only [Bool.or_eq_true, hgt, hamp, hbar, hlt]
  by_cases hs : ToLower (StringParam args "shell") = "true"
  · simp [hs]
  · simp [hs, or_assoc]

/-- Once a prefix of the commands has completed without failure, the loop goes
on with the remaining commands in the world reached. -/
theorem executeAll_append {run : Runner ω} {f : ShellModule} {args : Args}
    {pre : List String} {w w1 : World ω Cmd} (h : Succeed run f args pre w w1)
    (rest : List String) :
    f.executeAll run args (pre ++ rest) w = f.executeAll run args rest w1 := by
  induction h with
  | nil w => rfl
  | cons hcmd _ ih =>
    rw [List.cons_append, ShellModule.executeAll]
    simp only [hcmd]
    exact ih

/-- Commands that all complete without failure are each launched once, in
order. -/
theorem Succeed_trace {run : Runner ω} {f : ShellModule} {args : Args}
    {cmds : List String} {w w1 : World ω Cmd} (h : Succeed run f args cmds w w1) :
    w1.trace = w.trace ++ cmds.map (fun c => f.command c args) := by
  induction h with
  | nil w => simp
  | cons hcmd _ ih =>
    rw [executeSingle_eq] at hcmd
    have hw := (Prod.mk.inj hcmd).2
    rw [ih, ← hw]
    simp

/-- C5: when `command` is the sequence `pre ++ c :: post`, the commands of
`pre` complete without failure one after the other (from the world `w` to the
world `w1`) and `c` then fails with `err` (leaving the world `w2`), `Execute`
returns `changed = false` with that failure `err`, and what has been launched
since `w` is exactly the commands of `pre` followed by `c`, in that order: no
command of `post` is launched. -/
theorem Execute_stops_at_first_failure (run : Runner ω) (f : ShellModule) (args : Args)
    (pre post : List String) (c : String) (w w1 w2 : World ω Cmd) (err : Err)
    (hcommand : args "command" = some (.strings (pre ++ c :: post)))
    (hpre : Succeed run f args pre w w1)
    (hfail : f.executeSingle run c args w1 = (.returned (some err), w2)) :
    f.Execute run args w = (.returned (false, some err), w2) ∧
      w2.trace = w.trace ++ (pre ++ [c]).map (fun c => f.command c args) := by
  constructor
  · unfold ShellModule.Execute
    simp only [hcommand]
    rw [executeAll_append hpre, ShellModule.executeAll]
    simp only [hfail]
  · rw [executeSingle_eq] at hfail
    have hw := (Prod.mk.inj hfail).2
    rw [← hw, Succeed_trace hpre]
    simp

/-- Instance of C5: the sequence `false`, `echo unreachable` fails on its first
element; the host has run `false` only. -/
theorem Execute_stops_at_first_failure_witness :
    demoModule.Execute demoRun (commandArgs (.strings ["false", "echo unreachable"])) demoHost =
      (.returned (false, some (Errorf "error running command \x27false\x27 exit status 1")),
        ⟨[["false"]], [⟨["false"], .buffer, .buffer⟩]⟩) :=
  (Execute_stops_at_first_failure demoRun demoModule
    (commandArgs (.strings ["false", "echo unreachable"])) [] ["echo unreachable"] "false"
    demoHost demoHost ⟨[["false"]], [⟨["false"], .buffer, .buffer⟩]⟩ _ rfl (.nil _) rfl).1

/-- C6: when `command` is a sequence of strings `cmds`, or a single string `s`
(then `cmds` is the sequence of `s` alone), and the commands of `cmds` complete
without failure one after the other (from the world `w` to the world `w1`),
`Execute` returns `changed = true` without failure, and what has been launched
since `w` is exactly the commands of `cmds`, each once and in that order; for
the empty sequence nothing is launched. -/
theorem Execute_all_succeed (run : Runner ω) (f : ShellModule) (args : Args)
    (cmds : List String) (w w1 : World ω Cmd)
    (hcommand : args "command" = some (.strings cmds) ∨
      ∃ s, args "command" = some (.string s) ∧ cmds = [s])
    (hall : Succeed run f args cmds w w1) :
    f.Execute run args w = (.returned (true, none), w1) ∧
      w1.trace = w.trace ++ cmds.map (fun c => f.command c args) := by
  refine ⟨?_, Succeed_trace hall⟩
  rcases hcommand with hc | ⟨s, hc, rfl⟩
  · unfold ShellModule.Execute
    simp only [hc]
    have := executeAll_append hall []
    simpa [ShellModule.executeAll] using this
  · unfold ShellModule.Execute
    simp only [hc]
    cases hall with
    | cons hcmd hrest =>
      cases hrest
      simp only [hcmd]

/-- Instance of C6: a sequence of two commands that both succeed. -/
theorem Execute_all_succeed_witness :
    demoModule.Execute demoRun (commandArgs (.strings ["mkdir /tmp/x", "touch /tmp/x/y"]))
        demoHost =
      (.returned (true, none),
        ⟨[["mkdir", "/tmp/x"], ["touch", "/tmp/x/y"]],
          [⟨["mkdir", "/tmp/x"], .buffer, .buffer⟩, ⟨["touch", "/tmp/x/y"], .buffer, .buffer⟩]⟩) :=
  (Execute_all_succeed demoRun demoModule
    (commandArgs (.strings ["mkdir /tmp/x", "touch /tmp/x/y"]))
    ["mkdir /tmp/x", "touch /tmp/x/y"] demoHost _ (Or.inl rfl)
    (.cons rfl (.cons rfl (.nil _)))).1

/-- C7: when the `shell` argument in lower case is `true`, or the command holds
one of the characters `>`, `&`, `|`, `<`, `executeSingle` launches exactly one
command, whose argument vector is `bash`, `-c` and the command string
unmodified. -/
theorem executeSingle_forced_shell (run : Runner ω) (f : ShellModule) (command : String)
    (args : Args) (w : World ω Cmd)
    (h : ToLower (StringParam args "shell") = "true" ∨ '>' ∈ command.data ∨
      '&' ∈ command.data ∨ '|' ∈ command.data ∨ '<' ∈ command.data) :
    (f.executeSingle run command args w).2.trace =
      w.trace ++ [⟨["bash", "-c", command], f.stream, f.stream⟩] := by
  rw [executeSingle_eq]
  simp only [ShellModule.command, ShellModule.bits, (useShell_eq_true_iff command args).2 h,
    if_true]

/-- Instance of C7: a pipe without a `shell` argument, and a plain command with
the `shell` argument `TRUE`, are both run through `bash -c`. -/
theorem executeSingle_forced_shell_witness :
    (demoModule.executeSingle demoRun "echo a | wc -l"
        (commandArgs (.string "echo a | wc -l")) demoHost).2.trace =
      [⟨["bash", "-c", "echo a | wc -l"], .buffer, .buffer⟩] ∧
    (demoModule.executeSingle demoRun "ls -l" (shellArgs (.string "ls -l") "TRUE")
        demoHost).2.trace =
      [⟨["bash", "-c", "ls -l"], .buffer, .buffer⟩] :=
  ⟨executeSingle_forced_shell demoRun demoModule "echo a | wc -l"
      (commandArgs (.string "echo a | wc -l")) demoHost (by decide),
    executeSingle_forced_shell demoRun demoModule "ls -l" (shellArgs (.string "ls -l") "TRUE")
      demoHost (Or.inl (by decide))⟩

/-- C8, as amended: when the shell is not forced, `executeSingle` launches
exactly one command, whose argument vector is the command string split at every
single space character: the vector is not empty, its elements joined by single
spaces give the command string back, and no element contains a space. Adjacent,
leading and trailing spaces therefore give empty elements, and tabs and other
white space are not separators. No shell is interposed: the vector is the split
itself. -/
theorem executeSingle_direct (run : Runner ω) (f : ShellModule) (command : String)
    (args : Args) (w : World ω Cmd)
    (hshell : ToLower (StringParam args "shell") ≠ "true")
    (hgt : '>' ∉ command.data) (hamp : '&' ∉ command.data) (hbar : '|' ∉ command.data)
    (hlt : '<' ∉ command.data) :
    (f.executeSingle run command args w).2.trace =
        w.trace ++ [⟨Split command ' ', f.stream, f.stream⟩] ∧
      Split command ' ' ≠ [] ∧
      String.intercalate " " (Split command ' ') = command ∧
      ∀ b ∈ Split command ' ', ' ' ∉ b.data := by
  have hno : ShellModule.useShell command args = false := by
    cases hu : ShellModule.useShell command args with
    | false => rfl
    | true =>
      rcases (useShell_eq_true_iff command args).1 hu with h | h | h | h | h
      · exact absurd h hshell
      · exact absurd h hgt
      · exact absurd h hamp
      · exact absurd h hbar
      · exact absurd h hlt
  refine ⟨?_, ?_, ?_, ?_⟩
  · rw [executeSingle_eq]
    simp [ShellModule.command, ShellModule.bits, hno]
  · simp [Split, splitChars_ne_nil]
  · apply String.ext
    rw [intercalate_data]
    simp only [Split, List.map_map]
    have : (String.data ∘ String.mk) = id := by funext l; rfl
    rw [this, List.map_id]
    exact intercalate_splitChars ' ' command.data
  · intro b hb
    simp only [Split, List.mem_map] at hb
    obtain ⟨l, hl, rfl⟩ := hb
    exact not_mem_of_mem_splitChars ' ' command.data l hl

/-- Instance of the amended C8: two adjacent spaces and a trailing space give
empty elements, and the tab stays inside its element. -/
theorem executeSingle_direct_witness :
    (demoModule.executeSingle demoRun "echo  a\tb " (commandArgs (.string "echo  a\tb "))
        demoHost).2.trace = [⟨["echo", "", "a\tb", ""], .buffer, .buffer⟩] :=
  (executeSingle_direct demoRun demoModule "echo  a\tb " (commandArgs (.string "echo  a\tb "))
    demoHost (by decide) (by decide) (by decide) (by decide) (by decide)).1

/-- Against C8 as stated: for the command `echo`, two spaces, `hi`, without a
`shell` argument, the shell is not forced and the argument vector launched has
an empty element between the two words; it is not the sequence of the maximal
substrings free of white space. -/
theorem executeSingle_direct_counterexample :
    ShellModule.useShell "echo  hi" noArgs = false ∧
    (demoModule.executeSingle demoRun "echo  hi" noArgs demoHost).2.trace.map Cmd.Args =
      [["echo", "", "hi"]] ∧
    whitespaceFields "echo  hi" = ["echo", "hi"] ∧
    (demoModule.executeSingle demoRun "echo  hi" noArgs demoHost).2.trace.map Cmd.Args ≠
      [whitespaceFields "echo  hi"] := by
  decide

/-- C9: `Check` fails, with the error "missing 'command' parameter",
exactly when the argument map has no `command` key, and fails in no other way;
once the key is given a value `Check` succeeds whatever the value is (a string,
a sequence, a number, nil). In particular it fails on the empty map and succeeds
on the map that sets `command` to `ls`. -/
theorem Check_missing_iff (f : ShellModule) (args : Args) :
    (f.Check args = some (Errorf "missing \x27command\x27 parameter") ↔ args "command" = none) ∧
    (f.Check args = none ↔ args "command" ≠ none) ∧
    (∀ v : Value, f.Check (Function.update args "command" (some v)) = none) ∧
    f.Check noArgs = some (Errorf "missing \x27command\x27 parameter") ∧
    f.Check (commandArgs (.string "ls")) = none := by
  refine ⟨?_, ?_, ?_, rfl, rfl⟩
  · unfold ShellModule.Check
    cases args "command" <;> simp
  · unfold ShellModule.Check
    cases args "command" <;> simp
  · intro v
    simp [ShellModule.Check]

/-- C10, at the failing input: when `command` holds a value that is neither a
string nor a sequence of strings (here a number), `Execute` does not return to
its caller: the unchecked type assertion aborts it, whatever the host, the
module and the world are. -/
theorem Execute_aborts_on_malformed_command (run : Runner ω) (f : ShellModule)
    (w : World ω Cmd) :
    f.Execute run (commandArgs (.other "int")) w =
      (.aborted "interface conversion: interface \x7b\x7d is int, not []string", w) := by
  rfl

end modules

/-! ## Properties of the literal values and further properties of `Funcall.Evaluate` -/

namespace ast

variable {σ : Type}

/-- The character of a decimal digit reads back as that digit. -/
theorem digitValue_digitChar (d : Nat) (h : d < 10) : digitValue (Nat.digitChar d) = some d := by
  interval_cases d <;> rfl

/-- The character of a decimal digit is a digit character. -/
theorem isDigit_digitChar (d : Nat) (h : d < 10) : (Nat.digitChar d).isDigit = true := by
  interval_cases d <;> rfl

/-- The character of a decimal digit is not the minus sign. -/
theorem digitChar_ne_minus (d : Nat) (h : d < 10) : Nat.digitChar d ≠ '-' := by
  interval_cases d <;> decide

/-- Only the digit zero is written with the character `0`. -/
theorem digitChar_eq_zero (d : Nat) (h : d < 10) (h0 : Nat.digitChar d = '0') : d = 0 := by
  interval_cases d <;> first | rfl | exact absurd h0 (by decide)

/-- With enough fuel the digit loop of the library writes the decimal digits of
a positive number, most significant first, in front of what it was given. -/
theorem toDigitsCore_eq (fuel : Nat) : ∀ (n : Nat) (ds : List Char), n < fuel → 0 < n →
    Nat.toDigitsCore 10 fuel n ds = ((Nat.digits 10 n).reverse.map Nat.digitChar) ++ ds := by
  induction fuel with
  | zero => intro n ds h; exact absurd h (Nat.not_lt_zero _)
  | succ fuel ih =>
    intro n ds hlt hpos
    rw [Nat.toDigitsCore]
    rw [Nat.digits_def' (by norm_num) hpos]
    by_cases h0 : n / 10 = 0
    · simp [h0]
    · simp only [h0, if_false]
      have hlt2 : n / 10 < fuel := by
        have : n / 10 < n := Nat.div_lt_self hpos (by norm_num)
        omega
      rw [ih (n / 10) _ hlt2 (Nat.pos_of_ne_zero h0)]
      simp

/-- The digits written for a positive number are its decimal digits. -/
theorem natDigits_eq (n : Nat) (hpos : 0 < n) :
    natDigits n = (Nat.digits 10 n).reverse.map Nat.digitChar := by
  unfold natDigits Nat.toDigits
  rw [toDigitsCore_eq (n + 1) n [] (Nat.lt_succ_self n) hpos]
  simp

/-- Zero is written with the single character `0`. -/
theorem natDigits_zero : natDigits 0 = ['0'] := by rfl

/-- Reading one more character after a list of characters. -/
theorem parseDigits_append (l : List Char) (c : Char) (acc : Nat) :
    parseDigits (l ++ [c]) acc =
      (parseDigits l acc).bind (fun a => (digitValue c).map (fun d => a * 10 + d)) := by
  induction l generalizing acc with
  | nil =>
    simp only [List.nil_append, parseDigits, Option.some_bind]
    cases digitValue c <;> rfl
  | cons x xs ih =>
    simp only [List.cons_append, parseDigits]
    cases digitValue x with
    | none => rfl
    | some d => exact ih _

/-- Reading the characters of a list of decimal digits, most significant first,
gives the number these digits denote. -/
theorem parseDigits_digits (l : List Nat) (hl : ∀ d ∈ l, d < 10) :
    parseDigits (l.reverse.map Nat.digitChar) 0 = some (Nat.ofDigits 10 l) := by
  induction l with
  | nil => rfl
  | cons d ds ih =>
    rw [List.reverse_cons, List.map_append, List.map_singleton, parseDigits_append,
      ih (fun x hx => hl x (List.mem_cons_of_mem _ hx)),
      digitValue_digitChar d (hl d (List.mem_cons_self _ _))]
    simp [Nat.ofDigits_cons]
    omega

/-- Reading the digits written for a number gives the number back. -/
theorem parseDigits_natDigits (n : Nat) : parseDigits (natDigits n) 0 = some n := by
  rcases Nat.eq_zero_or_pos n with rfl | hpos
  · rfl
  · rw [natDigits_eq n hpos, parseDigits_digits _ (fun d hd => Nat.digits_lt_base (by norm_num) hd),
      Nat.ofDigits_digits]

/-- At least one digit is written for every number. -/
theorem natDigits_ne_nil (n : Nat) : natDigits n ≠ [] := by
  rcases Nat.eq_zero_or_pos n with rfl | hpos
  · simp [natDigits_zero]
  · rw [natDigits_eq n hpos]
    simp [Nat.digits_ne_nil_iff_ne_zero, Nat.pos_iff_ne_zero.1 hpos]

/-- Only digit characters are written for a number. -/
theorem natDigits_isDigit (n : Nat) : ∀ c ∈ natDigits n, c.isDigit = true := by
  rcases Nat.eq_zero_or_pos n with rfl | hpos
  · simp [natDigits_zero]
  · rw [natDigits_eq n hpos]
    intro c hc
    simp only [List.mem_map, List.mem_reverse] at hc
    obtain ⟨d, hd, rfl⟩ := hc
    exact isDigit_digitChar d (Nat.digits_lt_base (by norm_num) hd)

/-- The digits written for a positive number do not start with `0`. -/
theorem natDigits_head_ne_zero (n : Nat) (hpos : 0 < n) : (natDigits n).head? ≠ some '0' := by
  rw [natDigits_eq n hpos]
  have hne : Nat.digits 10 n ≠ [] := Nat.digits_ne_nil_iff_ne_zero.2 (Nat.pos_iff_ne_zero.1 hpos)
  have hlast := Nat.getLast_digit_ne_zero 10 (Nat.pos_iff_ne_zero.1 hpos)
  have hmem : (Nat.digits 10 n).getLast hne ∈ Nat.digits 10 n := List.getLast_mem hne
  rw [List.head?_map, List.head?_reverse, List.getLast?_eq_getLast _ hne]
  simp only [Option.map_some', ne_eq, Option.some.injEq]
  intro h0
  exact hlast (digitChar_eq_zero _ (Nat.digits_lt_base (by norm_num) hmem) h0)

/-- The rendering of an integer is a minus sign when it is negative, followed
by the digits of its absolute value. -/
theorem formatInt_data (n : Int) :
    (formatInt n).data = (if n < 0 then ['-'] else []) ++ natDigits n.natAbs := by
  cases n with
  | ofNat m => simp [formatInt]
  | negSucc m => simp [formatInt, Int.negSucc_lt_zero, Int.natAbs_negSucc]

/-- Parsing the rendering of an integer gives the integer back. -/
theorem parseInt_formatInt (n : Int) : parseInt (formatInt n) = some n := by
  cases n with
  | ofNat m =>
    have hne := natDigits_ne_nil m
    have hminus : ∀ ds, natDigits m ≠ '-' :: ds := by
      intro ds h
      have := natDigits_isDigit m '-' (by rw [h]; exact List.mem_cons_self _ _)
      exact absurd this (by decide)
    unfold parseInt formatInt
    simp only
    simp [parseDigits_natDigits]
  | negSucc m =>
    unfold parseInt formatInt
    simp only [natDigits_ne_nil, if_false, parseDigits_natDigits, Option.map_some']
    rfl

/-- C11: for every integer `n` (so for every 64-bit one, the least and the
greatest included), every environment, registry, fuel and world, evaluating the
number `n` returns without failure the rendering of `n` and leaves the world as
it was (no operation of the environment is requested). That rendering is the
canonical decimal one: parsing it as a decimal integer gives `n` back; it is a
minus sign exactly when `n` is negative, followed by the digits of the absolute
value of `n`; there is at least one digit, all characters after the sign are
digits (no fractional part), and the first digit is `0` only for `n = 0` (no
leading zeros). -/
theorem Number_Evaluate (env : Environment σ) (FUNCTIONS : Registry σ) (fuel : Nat)
    (n : Int) (w : World σ Event) :
    Evaluate env FUNCTIONS fuel (.Number n) w = some ((formatInt n, none), w) ∧
      parseInt (formatInt n) = some n ∧
      (formatInt n).data = (if n < 0 then ['-'] else []) ++ natDigits n.natAbs ∧
      natDigits n.natAbs ≠ [] ∧
      (∀ c ∈ natDigits n.natAbs, c.isDigit = true) ∧
      ((natDigits n.natAbs).head? = some '0' ↔ n = 0) ∧
      formatInt (-9223372036854775808) = "-9223372036854775808" ∧
      formatInt 9223372036854775807 = "9223372036854775807" := by
  refine ⟨?_, parseInt_formatInt n, formatInt_data n, natDigits_ne_nil _, natDigits_isDigit _,
    ?_, by decide, by decide⟩
  · cases fuel <;> simp [Evaluate]
  · constructor
    · intro h
      by_contra hn
      exact natDigits_head_ne_zero n.natAbs (Int.natAbs_pos.2 hn) h
    · rintro rfl
      rfl

/-- C12: evaluating a string literal returns, without failure, exactly what the
variable expansion of the environment gives for the stored value; the only
operation requested is that expansion, so every command execution in the trace
afterwards was there before; and when the expansion leaves the value unchanged
the result is the value itself. The literal "hello $\x7bname\x7d", under an
expansion that maps it to "hello world", evaluates to "hello world". -/
theorem String_Evaluate_expands (env : Environment σ) (FUNCTIONS : Registry σ) (fuel : Nat)
    (value : String) (w : World σ Event) :
    Evaluate env FUNCTIONS fuel (.String value) w =
        some (((env.ExpandVariables w.state value).1, none),
          ⟨(env.ExpandVariables w.state value).2, w.trace ++ [.ExpandVariables value]⟩) ∧
      (∀ r w1, Evaluate env FUNCTIONS fuel (.String value) w = some (r, w1) →
        ∀ cmd, Event.ExpandBacktick cmd ∈ w1.trace → Event.ExpandBacktick cmd ∈ w.trace) ∧
      ((env.ExpandVariables w.state value).1 = value →
        ∃ w1, Evaluate env FUNCTIONS fuel (.String value) w = some ((value, none), w1)) ∧
      Evaluate helloEnv demoFunctions 0 (.String "hello $\x7bname\x7d") demoWorld =
        some (("hello world", none), ⟨[], [.ExpandVariables "hello $\x7bname\x7d"]⟩) := by
  have h : Evaluate env FUNCTIONS fuel (.String value) w =
        some (((env.ExpandVariables w.state value).1, none),
          ⟨(env.ExpandVariables w.state value).2, w.trace ++ [.ExpandVariables value]⟩) := by
    cases fuel <;> simp [Evaluate]
  refine ⟨h, ?_, ?_, rfl⟩
  · intro r w1 hr cmd hmem
    rw [h] at hr
    simp only [Option.some.injEq, Prod.mk.injEq] at hr
    rw [← hr.2] at hmem
    simpa using hmem
  · intro hv
    exact ⟨_, by rw [h, hv]⟩

/-- C13: evaluating a boolean returns no failure, for every environment,
registry, fuel and world, and leaves the world as it was; the string returned is
"true" exactly when the stored value is true and "false" exactly when it is
false. -/
theorem Boolean_Evaluate (env : Environment σ) (FUNCTIONS : Registry σ) (fuel : Nat)
    (value : Bool) (w : World σ Event) :
    Evaluate env FUNCTIONS fuel (.Boolean value) w =
        some ((if value = true then "true" else "false", none), w) ∧
      (Evaluate env FUNCTIONS fuel (.Boolean value) w = some (("true", none), w) ↔
        value = true) ∧
      (Evaluate env FUNCTIONS fuel (.Boolean value) w = some (("false", none), w) ↔
        value = false) := by
  cases value <;> cases fuel <;> simp [Evaluate]

/-- C16: when the name is registered, the arguments before position k evaluate
successfully one after the other (from the world `w` to the world `w1`) and the
argument at position k is not an `Object`, the call returns the empty string
with the error "failed to cast ARG to an Object" (ARG being what `%v` prints for
that argument), and the world is `w1`: the arguments before k have been
evaluated in order, no later argument has, and the registered function has not
been called. -/
theorem Funcall_Evaluate_argument_not_object (env : Environment σ) (FUNCTIONS : Registry σ)
    (fuel : Nat) (name : String) (fn : Function σ) (pre post : List Node) (arg : Node)
    (w w1 : World σ Event) (vals : List String)
    (hfn : FUNCTIONS name = some fn)
    (hpre : EvaluatesTo (Evaluate env FUNCTIONS fuel) pre w vals w1)
    (hobj : arg.asObject = none) :
    Evaluate env FUNCTIONS (fuel + 1) (.Funcall name (pre ++ arg :: post)) w =
      some (("", some (Errorf ("failed to cast " ++ nodeString arg ++ " to an Object"))), w1) := by
  rw [Evaluate_Funcall_succ env FUNCTIONS fuel name _ w fn hfn, evalArgs_append hpre, evalArgs]
  simp only [hobj]

/-- Instance of C16: the second of three arguments is a node that is no value;
the environment has run `echo` only and `upper` was not called. -/
theorem Funcall_Evaluate_argument_not_object_witness :
    Evaluate demoEnv demoFunctions 1
      (.Funcall "upper" [.object (.Backtick "echo"), .other "Rule\x7bshell\x7d",
        .object (.Backtick "touch /tmp/x")]) demoWorld =
      some (("", some (Errorf "failed to cast Rule\x7bshell\x7d to an Object")),
        ⟨["echo"], [.ExpandBacktick "echo"]⟩) :=
  Funcall_Evaluate_argument_not_object demoEnv demoFunctions 0 "upper" _
    [.object (.Backtick "echo")] [.object (.Backtick "touch /tmp/x")]
    (.other "Rule\x7bshell\x7d") demoWorld ⟨["echo"], [.ExpandBacktick "echo"]⟩ ["echo"] rfl
    (.cons rfl rfl (.nil _)) rfl

/-- C18: when the name is registered, the arguments evaluate successfully, in
order, to the strings `vals` (leaving the world `w1`) and the registered
function returns the failure `e` next to any value `ret` whatsoever, the call
returns the empty string with that very failure `e`; the function has been
called once and nothing is requested after that call: the value `ret` is neither
cast nor evaluated. -/
theorem Funcall_Evaluate_function_failure (env : Environment σ) (FUNCTIONS : Registry σ)
    (fuel : Nat) (name : String) (fn : Function σ) (args : List Node)
    (w w1 : World σ Event) (vals : List String) (ret : Node) (e : Err) (s : σ)
    (hfn : FUNCTIONS name = some fn)
    (hargs : EvaluatesTo (Evaluate env FUNCTIONS fuel) args w vals w1)
    (hret : fn w1.state vals = ((ret, some e), s)) :
    Evaluate env FUNCTIONS (fuel + 1) (.Funcall name args) w =
      some (("", some e), ⟨s, w1.trace ++ [.Call name vals]⟩) := by
  rw [Evaluate_Funcall_succ env FUNCTIONS fuel name _ w fn hfn, evalArgs_done hargs]
  simp only [hret]

/-- Instance of C18: `fail` returns an error next to a boolean, which is not
evaluated. -/
theorem Funcall_Evaluate_function_failure_witness :
    Evaluate demoEnv demoFunctions 1 (.Funcall "fail" [.object (.Number 7)]) demoWorld =
      some (("", some (Errorf "failed")), ⟨[], [.Call "fail" ["7"]]⟩) :=
  Funcall_Evaluate_function_failure demoEnv demoFunctions 0 "fail" _ [.object (.Number 7)]
    demoWorld demoWorld ["7"] (.object (.Boolean true)) _ [] rfl (.cons rfl rfl (.nil _)) rfl

end ast

/-! ## Further properties of the shell module -/

namespace modules

variable {ω : Type}

/-- The argument vector built for a command depends on the argument map through
its `shell` entry only. -/
theorem bits_congr (command : String) (args args2 : Args)
    (h : args "shell" = args2 "shell") :
    ShellModule.bits command args = ShellModule.bits command args2 := by
  unfold ShellModule.bits ShellModule.useShell StringParam
  rw [h]

/-- Running a command depends on the argument map through its `shell` entry
only. -/
theorem executeSingle_congr (run : Runner ω) (f : ShellModule) (command : String)
    (args args2 : Args) (w : World ω Cmd) (h : args "shell" = args2 "shell") :
    f.executeSingle run command args w = f.executeSingle run command args2 w := by
  unfold ShellModule.executeSingle
  rw [bits_congr command args args2 h]

/-- C14: with the other arguments equal, `Execute` with `command` set to the
string `s` and `Execute` with `command` set to the sequence of `s` alone give
the same outcome (the same `changed`, the same failure) and the same world (the
same commands launched, the same state of the host), for every host. -/
theorem Execute_string_eq_singleton (run : Runner ω) (f : ShellModule) (args : Args)
    (s : String) (w : World ω Cmd) :
    f.Execute run (Function.update args "command" (some (.string s))) w =
      f.Execute run (Function.update args "command" (some (.strings [s]))) w := by
  have hshell : Function.update args "command" (some (Value.string s)) "shell" =
      Function.update args "command" (some (Value.strings [s])) "shell" := by
    simp [Function.update]
  unfold ShellModule.Execute
  simp only [Function.update_same, ShellModule.executeAll]
  rw [executeSingle_congr run f s _ _ w hshell]

/-- C15: `executeSingle` returns no failure when the run of the command returns
none, and when the run fails with `e` it returns the failure whose text is
"error running command 'COMMAND' " followed by the text of `e`,
COMMAND being the command string as given, not the argument vector built from
it. What the child wrote to its two outputs has no part in it: changing the
captured bytes changes nothing. On the examples: a direct command that fails, a
pipe run through the shell that fails (the text quotes the pipe, not `bash`),
and a command that succeeds. -/
theorem executeSingle_error (run : Runner ω) (f : ShellModule) (command : String)
    (args : Args) (w : World ω Cmd) :
    (f.executeSingle run command args w).1 =
        .returned ((run w.state (f.command command args)).err.map (fun e =>
          Errorf ("error running command \x27" ++ command ++ "\x27 " ++ e.text))) ∧
      (∀ out errOut : String,
        (f.executeSingle (fun s c => { run s c with out := out, errOut := errOut })
          command args w).1 = (f.executeSingle run command args w).1) ∧
      (demoModule.executeSingle demoRun "false" noArgs demoHost).1 =
        .returned (some (Errorf "error running command \x27false\x27 exit status 1")) ∧
      (demoModule.executeSingle failingRun "ls | wc -l" noArgs demoHost).1 =
        .returned (some (Errorf "error running command \x27ls | wc -l\x27 exit status 1")) ∧
      (demoModule.executeSingle demoRun "true" noArgs demoHost).1 = .returned none := by
  refine ⟨by rw [executeSingle_eq], ?_, rfl, rfl, rfl⟩
  intro out errOut
  rw [executeSingle_eq, executeSingle_eq]

/-- When the loop over the commands returns, it reports a change exactly when
it reports no failure. -/
theorem executeAll_changed_iff (run : Runner ω) (f : ShellModule) (args : Args)
    (cmds : List String) (w w1 : World ω Cmd) (changed : Bool) (err : Option Err)
    (h : f.executeAll run args cmds w = (.returned (changed, err), w1)) :
    changed = true ↔ err = none := by
  induction cmds generalizing w with
  | nil =>
    simp only [ShellModule.executeAll, Prod.mk.injEq, Outcome.returned.injEq] at h
    obtain ⟨⟨rfl, rfl⟩, _⟩ := h
    simp
  | cons c rest ih =>
    rw [ShellModule.executeAll, executeSingle_eq] at h
    cases he : (run w.state (f.command c args)).err with
    | none =>
      simp only [he, Option.map_none'] at h
      exact ih _ h
    | some e =>
      simp only [he, Option.map_some', Prod.mk.injEq, Outcome.returned.injEq] at h
      obtain ⟨⟨rfl, rfl⟩, _⟩ := h
      simp

/-- C17: every failure path of `Execute` reports `changed = false`. Without a
`command` key it returns `false` with the error "missing 'command' parameter",
which is the error `Check` gives, in the world it started from (no process is
launched). When the single command fails, or when a command of the
sequence fails after the ones before it completed, it returns `false` with that
failure. And whenever `Execute` returns, `changed` is true exactly when there is
no failure. -/
theorem Execute_changed_iff (run : Runner ω) (f : ShellModule) (args : Args)
    (w : World ω Cmd) :
    (args "command" = none →
        f.Execute run args w =
            (.returned (false, some (Errorf "missing \x27command\x27 parameter")), w) ∧
          f.Check args = some (Errorf "missing \x27command\x27 parameter")) ∧
      (∀ s e w1, args "command" = some (.string s) →
        f.executeSingle run s args w = (.returned (some e), w1) →
        f.Execute run args w = (.returned (false, some e), w1)) ∧
      (∀ pre c post e w1 w2, args "command" = some (.strings (pre ++ c :: post)) →
        Succeed run f args pre w w1 →
        f.executeSingle run c args w1 = (.returned (some e), w2) →
        f.Execute run args w = (.returned (false, some e), w2)) ∧
      (∀ changed err w1, f.Execute run args w = (.returned (changed, err), w1) →
        (changed = true ↔ err = none)) := by
  refine ⟨?_, ?_, ?_, ?_⟩
  · intro hc
    simp [ShellModule.Execute, ShellModule.Check, hc]
  · intro s e w1 hc he
    simp only [ShellModule.Execute, hc, he]
  · intro pre c post e w1 w2 hc hpre he
    simp only [ShellModule.Execute, hc]
    rw [executeAll_append hpre, ShellModule.executeAll]
    simp only [he]
  · intro changed err w1 h
    unfold ShellModule.Execute at h
    cases hc : args "command" with
    | none =>
      simp only [hc, Prod.mk.injEq, Outcome.returned.injEq] at h
      obtain ⟨⟨rfl, rfl⟩, _⟩ := h
      simp
    | some v =>
      cases v with
      | string s =>
        simp only [hc] at h
        rw [executeSingle_eq] at h
        cases he : (run w.state (f.command s args)).err with
        | none =>
          simp only [he, Option.map_none', Prod.mk.injEq, Outcome.returned.injEq] at h
          obtain ⟨⟨rfl, rfl⟩, _⟩ := h
          simp
        | some e =>
          simp only [he, Option.map_some', Prod.mk.injEq, Outcome.returned.injEq] at h
          obtain ⟨⟨rfl, rfl⟩, _⟩ := h
          simp
      | strings cmds =>
        simp only [hc] at h
        exact executeAll_changed_iff run f args cmds w w1 changed err h
      | other typ =>
        simp only [hc, Prod.mk.injEq] at h
        exact absurd h.1 (by simp)

/-- Instance of C17: the empty map; a sequence whose second command fails after
the first has run; a single command that succeeds. -/
theorem Execute_changed_iff_witness :
    demoModule.Execute demoRun noArgs demoHost =
        (.returned (false, some (Errorf "missing \x27command\x27 parameter")), demoHost) ∧
      demoModule.Execute demoRun (commandArgs (.strings ["mkdir /tmp/x", "false", "ls"]))
          demoHost =
        (.returned (false, some (Errorf "error running command \x27false\x27 exit status 1")),
          ⟨[["mkdir", "/tmp/x"], ["false"]],
            [⟨["mkdir", "/tmp/x"], .buffer, .buffer⟩, ⟨["false"], .buffer, .buffer⟩]⟩) ∧
      ((true = true) ↔ (none : Option Err) = none) :=
  ⟨((Execute_changed_iff demoRun demoModule noArgs demoHost).1 rfl).1,
    (Execute_changed_iff demoRun demoModule
      (commandArgs (.strings ["mkdir /tmp/x", "false", "ls"])) demoHost).2.2.1
      ["mkdir /tmp/x"] "false" ["ls"] _ _ _ rfl (.cons rfl (.nil _)) rfl,
    (Execute_changed_iff demoRun demoModule (commandArgs (.string "ls")) demoHost).2.2.2
      true none ⟨[["ls"]], [⟨["ls"], .buffer, .buffer⟩]⟩ rfl⟩

/-- C19: for every command string and every argument map the argument vector
built by `executeSingle` is not empty: a split on the single space has at least
one element, the vector has exactly three elements when the shell is forced and
is the split otherwise. Hence taking its first element never fails:
`executeSingle` never aborts, whatever the host. The empty string splits into
one empty element and three spaces into four. -/
theorem executeSingle_bits_nonempty (run : Runner ω) (f : ShellModule) (command : String)
    (args : Args) (w : World ω Cmd) :
    ShellModule.bits command args ≠ [] ∧
      0 < (Split command ' ').length ∧
      (ShellModule.bits command args).length =
        (if ShellModule.useShell command args = true then 3 else (Split command ' ').length) ∧
      (∀ msg, (f.executeSingle run command args w).1 ≠ .aborted msg) ∧
      Split "" ' ' = [""] ∧ Split "   " ' ' = ["", "", "", ""] := by
  refine ⟨bits_ne_nil _ _, ?_, ?_, ?_, by decide, by decide⟩
  · simp [Split, List.length_pos, splitChars_ne_nil]
  · unfold ShellModule.bits
    split <;> simp_all
  · intro msg
    rw [executeSingle_eq]
    simp

end modules

end marionette
